import Mathlib

/-!
Verification of the snapshot index of hat-backup
(src/hat/snapshot_index.rs).

The Rust module wraps one SQLite table

  snapshot_index (id INTEGER PRIMARY KEY, family BLOB, hash BLOB, tree_ref BLOB)

behind a message-handling actor with three messages: Add, Latest, Flush.
The connection is always inside an open transaction: `new` executes BEGIN
after creating the table, and `flush` executes COMMIT; BEGIN.

Shallow embedding used here:
  - a row of the table is `Row` with its store-assigned rowid;
  - the database connection state is `SnapshotIndex`: the visible rows of
    the table in rowid order, the count of rows that belong to the last
    committed transaction (a crash rolls the open transaction back, keeping
    only those), and whether a transaction is open;
  - SQLite assigns rowids for a plain INTEGER PRIMARY KEY column as
    max(existing rowid) + 1, embedded as `nextRowId`;
  - the SELECT of `latest_snapshot` (ORDER BY id DESC, first row) is
    embedded as the matching row of maximal id (`maxIdRow`);
  - `restart` models a crash and reopen: the open transaction is rolled
    back to the last committed state and BEGIN runs again;
  - `handleE` is the fallible variant of the message handler: a `StoreEnv`
    records which low-level store operations (exec, prepare, bind, step)
    succeed, and `none` models the panic / process termination the Rust
    code performs on a store failure it checks. The step of the Latest
    query is the one unchecked operation: its result code is compared
    against SQLITE_ROW only, so an unexpected code falls through to
    `return None` and the caller receives the recoverable reply
    Latest(None).
-/

/-- Byte strings (family keys, hash bytes, tree references) as lists of
byte values. -/
abbrev Bytes := List Nat

/-- hash_index::Hash: a wrapper around a byte vector. -/
structure Hash where
  bytes : Bytes
deriving DecidableEq

/-- One row of the snapshot_index table. -/
structure Row where
  id : Nat
  family : Bytes
  hash : Bytes
  tree_ref : Bytes
deriving DecidableEq

/-- State of the SQLite connection owned by the SnapshotIndex actor:
all rows visible on this connection (committed plus inserted in the open
transaction, in insertion order), the number of leading rows that are
committed, and whether a transaction is open. -/
structure SnapshotIndex where
  rows : List Row
  committedCount : Nat
  txnOpen : Bool
deriving DecidableEq

/-- The CREATE TABLE statement executed by SnapshotIndex::new
(src/hat/snapshot_index.rs lines 58-62), verbatim. -/
def createTableSql : String :=
  "CREATE TABLE IF NOT EXISTS
                    snapshot_index (id        INTEGER PRIMARY KEY,
                                    family    BLOB,
                                    hash      BLOB,
                                    tree_ref  BLOB)"

/-- SQLite rowid assignment for an INTEGER PRIMARY KEY column without
AUTOINCREMENT: one more than the largest rowid currently in the table. -/
def nextRowId (rows : List Row) : Nat :=
  (rows.map Row.id).foldr max 0 + 1

/-- BEGIN: opens a transaction. -/
def beginTxn (s : SnapshotIndex) : SnapshotIndex :=
  { s with txnOpen := true }

/-- COMMIT: makes every visible row durable and closes the transaction. -/
def commitTxn (s : SnapshotIndex) : SnapshotIndex :=
  { s with committedCount := s.rows.length, txnOpen := false }

/-- SnapshotIndex::new on a fresh store: empty table, then BEGIN. -/
def SnapshotIndex.new : SnapshotIndex :=
  beginTxn { rows := [], committedCount := 0, txnOpen := false }

/-- The row INSERT INTO snapshot_index builds: the store assigns the id,
family and hash are bound as their byte contents. -/
def newRow (s : SnapshotIndex) (family : Bytes) (hash : Hash)
    (tree_ref : Bytes) : Row :=
  { id := nextRowId s.rows, family := family, hash := hash.bytes,
    tree_ref := tree_ref }

/-- SnapshotIndex::add_snapshot: INSERT INTO snapshot_index
(family, hash, tree_ref) VALUES (?, ?, ?); the store assigns the id. -/
def add_snapshot (s : SnapshotIndex) (family : Bytes) (hash : Hash)
    (tree_ref : Bytes) : SnapshotIndex :=
  { s with rows := s.rows ++ [newRow s family hash tree_ref] }

/-- First row of an ORDER BY id DESC scan: the row with maximal id. -/
def maxIdRow : List Row → Option Row
  | [] => none
  | r :: rs =>
    match maxIdRow rs with
    | none => some r
    | some m => if r.id < m.id then some m else some r

/-- SnapshotIndex::latest_snapshot: SELECT hash, tree_ref FROM
snapshot_index WHERE family=? ORDER BY id DESC, first row or None. -/
def latest_snapshot (s : SnapshotIndex) (family : Bytes) :
    Option (Hash × Bytes) :=
  match maxIdRow (s.rows.filter (fun r => r.family = family)) with
  | some r => some ({ bytes := r.hash }, r.tree_ref)
  | none => none

/-- SnapshotIndex::flush: exec "COMMIT; BEGIN". -/
def flush (s : SnapshotIndex) : SnapshotIndex :=
  beginTxn (commitTxn s)

/-- Simulated crash and reopen: the open transaction is rolled back, only
rows of the last committed transaction survive, and the new connection
runs BEGIN as in SnapshotIndex::new. -/
def restart (s : SnapshotIndex) : SnapshotIndex :=
  beginTxn { rows := s.rows.take s.committedCount,
             committedCount := s.committedCount, txnOpen := false }

/-- The request messages of the actor. -/
inductive Msg
  | Add : Bytes → Hash → Bytes → Msg
  | Latest : Bytes → Msg
  | Flush : Msg
deriving DecidableEq

/-- The reply messages of the actor (the Reply enum has no error
variant). -/
inductive Reply
  | AddOK : Reply
  | Latest : Option (Hash × Bytes) → Reply
  | FlushOK : Reply
deriving DecidableEq

/-- MsgHandler::handle: runs the effect of the message on the table, then
invokes the reply callback; the second component lists each invocation of
the reply callback in order. -/
def handle (s : SnapshotIndex) : Msg → SnapshotIndex × List Reply
  | Msg.Add name hash tree_ref =>
      (add_snapshot s name hash tree_ref, [Reply.AddOK])
  | Msg.Latest name => (s, [Reply.Latest (latest_snapshot s name)])
  | Msg.Flush => (flush s, [Reply.FlushOK])

/-- Run a sequence of messages through the handler, keeping the state. -/
def runMsgs (s : SnapshotIndex) : List Msg → SnapshotIndex
  | [] => s
  | m :: ms => runMsgs (handle s m).1 ms

/-- The longest prefix of a message sequence that ends with a Flush
(empty when the sequence holds no Flush): exactly the operations whose
effects the last successful COMMIT made durable. -/
def keepThroughLastFlush : List Msg → List Msg
  | [] => []
  | m :: ms =>
    match keepThroughLastFlush ms with
    | [] =>
      match m with
      | Msg.Flush => [Msg.Flush]
      | _ => []
    | p => m :: p

/-- Outcome flags of the low-level store operations, one flag per
operation kind the Rust code checks (exec result, prepare result, bind
result codes, step result codes). -/
structure StoreEnv where
  openOk : Bool
  execOk : Bool
  prepareOk : Bool
  bindOk : Bool
  stepOk : Bool
deriving DecidableEq

/-- The environment in which every store operation succeeds. -/
def allOk : StoreEnv := ⟨true, true, true, true, true⟩

/-- Fallible SnapshotIndex::new: panics (None) when open fails or the
CREATE TABLE / BEGIN exec fails. -/
def newE (env : StoreEnv) : Option SnapshotIndex :=
  if env.openOk && env.execOk then some SnapshotIndex.new else none

/-- Fallible add_snapshot: prepare unwrap, bind_param assert_eq SQLITE_OK,
step assert_eq SQLITE_DONE; any failure panics (None). -/
def add_snapshotE (env : StoreEnv) (s : SnapshotIndex) (family : Bytes)
    (hash : Hash) (tree_ref : Bytes) : Option SnapshotIndex :=
  if env.prepareOk && env.bindOk && env.stepOk then
    some (add_snapshot s family hash tree_ref)
  else none

/-- Fallible latest_snapshot: prepare unwrap and bind_param assert panic
(None) on failure, but the step result code is only compared against
SQLITE_ROW (src/hat/snapshot_index.rs line 97): an unexpected code is not
asserted and falls through to `return None`, so a step failure yields the
recoverable empty result, not termination. -/
def latest_snapshotE (env : StoreEnv) (s : SnapshotIndex) (family : Bytes) :
    Option (Option (Hash × Bytes)) :=
  if env.prepareOk && env.bindOk then
    some (if env.stepOk then latest_snapshot s family else none)
  else none

/-- Fallible flush: exec_or_die "COMMIT; BEGIN" panics (None) on exec
failure. -/
def flushE (env : StoreEnv) (s : SnapshotIndex) : Option SnapshotIndex :=
  if env.execOk then some (flush s) else none

/-- Fallible message handler: None models the panic that terminates the
actor; Some carries the new state and the reply exactly as `handle`. -/
def handleE (env : StoreEnv) (s : SnapshotIndex) :
    Msg → Option (SnapshotIndex × List Reply)
  | Msg.Add name hash tree_ref =>
      (add_snapshotE env s name hash tree_ref).map
        (fun s2 => (s2, [Reply.AddOK]))
  | Msg.Latest name =>
      (latest_snapshotE env s name).map (fun r => (s, [Reply.Latest r]))
  | Msg.Flush => (flushE env s).map (fun s2 => (s2, [Reply.FlushOK]))

/-! ## Basic lemmas -/

theorem le_foldr_max (l : List Nat) (x : Nat) (hx : x ∈ l) :
    x ≤ l.foldr max 0 := by
  induction l with
  | nil => cases hx
  | cons a l ih =>
    rcases List.mem_cons.mp hx with h | h
    · subst h; exact le_max_left _ _
    · exact le_trans (ih h) (le_max_right _ _)

theorem id_lt_nextRowId {rows : List Row} {r : Row} (hr : r ∈ rows) :
    r.id < nextRowId rows := by
  have : r.id ≤ (rows.map Row.id).foldr max 0 :=
    le_foldr_max _ _ (List.mem_map_of_mem Row.id hr)
  exact Nat.lt_succ_of_le this

theorem maxIdRow_append_last (l : List Row) (r : Row)
    (h : ∀ x ∈ l, x.id < r.id) : maxIdRow (l ++ [r]) = some r := by
  induction l with
  | nil => rfl
  | cons a l ih =>
    have ha : a.id < r.id := h a (List.mem_cons_self a l)
    have ih2 : maxIdRow (l.append [r]) = some r :=
      ih (fun x hx => h x (List.mem_cons_of_mem a hx))
    simp only [List.cons_append, maxIdRow, ih2]
    rw [if_pos ha]

theorem flush_rows (s : SnapshotIndex) : (flush s).rows = s.rows := rfl

theorem latest_of_rows_eq {s t : SnapshotIndex} (h : s.rows = t.rows)
    (f : Bytes) : latest_snapshot s f = latest_snapshot t f := by
  unfold latest_snapshot
  rw [h]

theorem latest_add_self (s : SnapshotIndex) (f : Bytes) (h : Hash)
    (t : Bytes) : latest_snapshot (add_snapshot s f h t) f = some (h, t) := by
  unfold latest_snapshot add_snapshot
  rw [List.filter_append]
  have h1 : List.filter (fun r => r.family = f) [newRow s f h t]
      = [newRow s f h t] := by
    simp [newRow]
  rw [h1, maxIdRow_append_last _ _
    (fun x hx => id_lt_nextRowId (List.mem_of_mem_filter hx))]
  rfl

/-! ## Claim theorems -/

/-- C1: for every family F, hash H and blob T, Add(F, H, T) followed by
Flush and then Latest(F) returns Some((H, T)) with exactly the stored
bytes, from any state of the index. -/
theorem round_trip_add_flush_latest (s : SnapshotIndex) (F : Bytes)
    (H : Hash) (T : Bytes) :
    latest_snapshot (flush (add_snapshot s F H T)) F = some (H, T) := by
  rw [latest_of_rows_eq (flush_rows (add_snapshot s F H T)) F]
  exact latest_add_self s F H T

/-- C2: after Add(F, H1, T1) then Add(F, H2, T2) on the same family,
Latest(F) returns Some((H2, T2)): the most recently added record wins,
whatever the hash values are. -/
theorem ordering_last_add_wins (s : SnapshotIndex) (F : Bytes)
    (H1 : Hash) (T1 : Bytes) (H2 : Hash) (T2 : Bytes) :
    latest_snapshot (add_snapshot (add_snapshot s F H1 T1) F H2 T2) F
      = some (H2, T2) :=
  latest_add_self (add_snapshot s F H1 T1) F H2 T2

/-- C3: a record added with Add(F, H, T) is visible to subsequent
Latest(F) calls immediately, with no Flush: the handler answers the
Latest message with it and leaves the state unchanged. -/
theorem read_your_own_write_before_flush (s : SnapshotIndex) (F : Bytes)
    (H : Hash) (T : Bytes) :
    latest_snapshot (add_snapshot s F H T) F = some (H, T) ∧
    handle (add_snapshot s F H T) (Msg.Latest F)
      = (add_snapshot s F H T, [Reply.Latest (some (H, T))]) := by
  refine ⟨latest_add_self s F H T, ?_⟩
  simp only [handle, latest_add_self s F H T]

/-- Iterated flush. -/
def flushN : Nat → SnapshotIndex → SnapshotIndex
  | 0, s => s
  | n + 1, s => flushN n (flush s)

theorem flushN_rows : ∀ (n : Nat) (s : SnapshotIndex),
    (flushN n s).rows = s.rows
  | 0, _ => rfl
  | n + 1, s => flushN_rows n (flush s)

theorem handle_txnOpen {s : SnapshotIndex} (m : Msg) (h : s.txnOpen = true) :
    (handle s m).1.txnOpen = true := by
  cases m
  · exact h
  · exact h
  · rfl

theorem runMsgs_txnOpen : ∀ (ms : List Msg) (s : SnapshotIndex),
    s.txnOpen = true → (runMsgs s ms).txnOpen = true
  | [], _, h => h
  | m :: ms, _, h => runMsgs_txnOpen ms _ (handle_txnOpen m h)

/-- C5: from construction onward the table is always inside an open
transaction; Add and Latest never commit (they leave the committed row
count unchanged); Flush commits the open transaction (every visible row
becomes durable) and immediately begins a new one; and every operation
right after a Flush produces the same visible rows and the same replies
as it would have without the commit boundary. -/
theorem always_open_transaction :
    (SnapshotIndex.new.txnOpen = true) ∧
    (∀ ms : List Msg, (runMsgs SnapshotIndex.new ms).txnOpen = true) ∧
    (∀ (s : SnapshotIndex) (name : Bytes) (h : Hash) (t : Bytes),
      (handle s (Msg.Add name h t)).1.committedCount = s.committedCount) ∧
    (∀ (s : SnapshotIndex) (name : Bytes),
      (handle s (Msg.Latest name)).1.committedCount = s.committedCount) ∧
    (∀ s : SnapshotIndex,
      (flush s).committedCount = s.rows.length ∧ (flush s).txnOpen = true) ∧
    (∀ (s : SnapshotIndex) (m : Msg),
      (handle (flush s) m).1.rows = (handle s m).1.rows ∧
      (handle (flush s) m).2 = (handle s m).2) := by
  refine ⟨rfl, fun ms => runMsgs_txnOpen ms SnapshotIndex.new rfl,
    fun s name h t => rfl, fun s name => rfl, fun s => ⟨rfl, rfl⟩,
    fun s m => ?_⟩
  cases m
  · exact ⟨rfl, rfl⟩
  · exact ⟨rfl, rfl⟩
  · exact ⟨rfl, rfl⟩

/-- C6: any number of consecutive Flush operations with no intervening
Add leaves the result of Latest unchanged, from any state. -/
theorem flush_idempotent_visibility (n : Nat) (s : SnapshotIndex)
    (f : Bytes) : latest_snapshot (flushN n s) f = latest_snapshot s f :=
  latest_of_rows_eq (flushN_rows n s) f

/-- C7: Add on family A leaves Latest on any other family B unchanged,
and Latest on a family with no records returns None (a valid result, the
total function has no error outcome). -/
theorem family_isolation_and_empty (s : SnapshotIndex) (A B : Bytes)
    (H : Hash) (T : Bytes) :
    (A ≠ B → latest_snapshot (add_snapshot s A H T) B = latest_snapshot s B) ∧
    ((∀ r ∈ s.rows, r.family ≠ B) → latest_snapshot s B = none) := by
  constructor
  · intro hAB
    unfold latest_snapshot add_snapshot
    rw [List.filter_append]
    have h0 : List.filter (fun r => r.family = B) [newRow s A H T] = [] := by
      simp [newRow, hAB]
    rw [h0, List.append_nil]
  · intro hB
    unfold latest_snapshot
    have h0 : List.filter (fun r => r.family = B) s.rows = [] := by
      rw [List.filter_eq_nil_iff]
      intro a ha
      simpa using hB a ha
    rw [h0]
    rfl

/-- Witness for C7 at concrete inputs: the families are the byte strings
[65] and [66]. -/
theorem family_isolation_and_empty_witness :
    latest_snapshot (add_snapshot SnapshotIndex.new [65] ⟨[7]⟩ [8]) [66]
      = latest_snapshot SnapshotIndex.new [66] ∧
    latest_snapshot SnapshotIndex.new [66] = none :=
  ⟨(family_isolation_and_empty SnapshotIndex.new [65] [66] ⟨[7]⟩ [8]).1
      (by decide),
   (family_isolation_and_empty SnapshotIndex.new [65] [66] ⟨[7]⟩ [8]).2
      (fun r hr => absurd hr (List.not_mem_nil r))⟩

/-- C10: the handler invokes the reply callback exactly once per message,
the reply variant matches the request variant, and the reply is paired
with the state the completed effect produced: Add yields AddOK after the
insert, Latest yields the lookup result with the state untouched, Flush
yields FlushOK after the commit. -/
theorem reply_discipline :
    (∀ (s : SnapshotIndex) (m : Msg), ((handle s m).2).length = 1) ∧
    (∀ (s : SnapshotIndex) (name : Bytes) (h : Hash) (t : Bytes),
      handle s (Msg.Add name h t)
        = (add_snapshot s name h t, [Reply.AddOK])) ∧
    (∀ (s : SnapshotIndex) (name : Bytes),
      handle s (Msg.Latest name)
        = (s, [Reply.Latest (latest_snapshot s name)])) ∧
    (∀ s : SnapshotIndex, handle s Msg.Flush = (flush s, [Reply.FlushOK])) := by
  refine ⟨fun s m => ?_, fun s name h t => rfl, fun s name => rfl,
    fun s => rfl⟩
  cases m
  · rfl
  · rfl
  · rfl

/-- C8 counterexample: in the environment where every store operation
succeeds except the step of the SELECT, handling Latest on a family that
holds one record does not terminate the actor: the caller receives the
recoverable reply Latest(none), while the fault-free handler returns the
stored record, so an unexpected step result code in Latest is returned
as a recoverable reply instead of terminating. -/
theorem step_failure_latest_replies_none :
    handleE ⟨true, true, true, true, false⟩
        (add_snapshot SnapshotIndex.new [65] ⟨[170]⟩ [10]) (Msg.Latest [65])
      = some (add_snapshot SnapshotIndex.new [65] ⟨[170]⟩ [10],
              [Reply.Latest none]) ∧
    handle (add_snapshot SnapshotIndex.new [65] ⟨[170]⟩ [10]) (Msg.Latest [65])
      = (add_snapshot SnapshotIndex.new [65] ⟨[170]⟩ [10],
         [Reply.Latest (some (⟨[170]⟩, [10]))]) := by
  constructor
  · decide
  · decide

/-- C8 amended: every checked table-level failure terminates the actor
rather than replying: a failed open, a failed exec (CREATE TABLE / BEGIN
/ COMMIT), a failed prepare or bind anywhere, and an unexpected step
result code in Add; the one exception is the step of the Latest query,
whose unexpected result code is silently returned to the caller as the
recoverable reply Latest(None); so in any environment the outcome is
termination, the normal reply, or that Latest(None) reply, and under the
precondition that the store operations succeed no panic branch is
reachable and the handler produces exactly the normal reply. -/
theorem fatal_error_policy :
    (∀ (s : SnapshotIndex) (m : Msg), handleE allOk s m = some (handle s m)) ∧
    (newE allOk = some SnapshotIndex.new) ∧
    (∀ (env : StoreEnv) (s : SnapshotIndex) (m : Msg),
      handleE env s m = none ∨ handleE env s m = some (handle s m) ∨
      ∃ name, m = Msg.Latest name ∧
        handleE env s m = some (s, [Reply.Latest none])) ∧
    (∀ (b c d e : Bool) (s : SnapshotIndex) (fam : Bytes) (h : Hash)
      (t : Bytes), add_snapshotE ⟨b, c, false, d, e⟩ s fam h t = none) ∧
    (∀ (b c d e : Bool) (s : SnapshotIndex) (fam : Bytes) (h : Hash)
      (t : Bytes), add_snapshotE ⟨b, c, d, false, e⟩ s fam h t = none) ∧
    (∀ (b c d e : Bool) (s : SnapshotIndex) (fam : Bytes) (h : Hash)
      (t : Bytes), add_snapshotE ⟨b, c, d, e, false⟩ s fam h t = none) ∧
    (∀ (b c d e : Bool) (s : SnapshotIndex), flushE ⟨b, false, c, d, e⟩ s = none) ∧
    (∀ b c d e : Bool, newE ⟨false, b, c, d, e⟩ = none) ∧
    (∀ (b c d e : Bool) (s : SnapshotIndex) (fam : Bytes),
      latest_snapshotE ⟨b, c, false, d, e⟩ s fam = none) ∧
    (∀ (b c d e : Bool) (s : SnapshotIndex) (fam : Bytes),
      latest_snapshotE ⟨b, c, d, false, e⟩ s fam = none) ∧
    (∀ (b c : Bool) (s : SnapshotIndex) (fam : Bytes),
      latest_snapshotE ⟨b, c, true, true, false⟩ s fam = some none) := by
  refine ⟨fun s m => ?_, rfl, fun env s m => ?_,
    fun b c d e s fam h t => rfl,
    fun b c d e s fam h t => by simp [add_snapshotE],
    fun b c d e s fam h t => by simp [add_snapshotE],
    fun b c d e s => rfl, fun b c d e => rfl,
    fun b c d e s fam => rfl,
    fun b c d e s fam => by simp [latest_snapshotE],
    fun b c s fam => rfl⟩
  · cases m
    · rfl
    · rfl
    · rfl
  · cases m with
    | Add name h t =>
      by_cases hc : (env.prepareOk && env.bindOk && env.stepOk) = true
      · right
        left
        simp [handleE, add_snapshotE, hc, handle]
      · left
        simp [handleE, add_snapshotE, hc]
    | Latest name =>
      by_cases hc : (env.prepareOk && env.bindOk) = true
      · by_cases hs : env.stepOk = true
        · right
          left
          simp [handleE, latest_snapshotE, hc, hs, handle]
        · right
          right
          exact ⟨name, rfl, by simp [handleE, latest_snapshotE, hc, hs]⟩
      · left
        simp [handleE, latest_snapshotE, hc]
    | Flush =>
      by_cases hc : env.execOk = true
      · right
        left
        simp [handleE, flushE, hc, handle]
      · left
        simp [handleE, flushE, hc]

/-- Whether the second character list starts with the first. -/
def startsWith : List Char → List Char → Bool
  | [], _ => true
  | _ :: _, [] => false
  | a :: as, b :: bs => a == b && startsWith as bs

/-- Whether the second character list holds the first as a contiguous
substring. -/
def hasSubstring (pat : List Char) : List Char → Bool
  | [] => startsWith pat []
  | c :: cs => startsWith pat (c :: cs) || hasSubstring pat cs

set_option maxRecDepth 40000 in
/-- C9 counterexample: the CREATE TABLE statement of SnapshotIndex::new
declares id as INTEGER PRIMARY KEY and does not contain the keyword
AUTOINCREMENT anywhere, so the schema is not declared as INTEGER PRIMARY
KEY AUTOINCREMENT. -/
theorem schema_has_no_autoincrement :
    hasSubstring "AUTOINCREMENT".data createTableSql.data = false ∧
    hasSubstring "INTEGER PRIMARY KEY".data createTableSql.data = true := by
  constructor
  · decide
  · decide

theorem pairwise_id_handle {s : SnapshotIndex} (m : Msg)
    (h : List.Pairwise (fun a b => a.id < b.id) s.rows) :
    List.Pairwise (fun a b => a.id < b.id) ((handle s m).1).rows := by
  cases m with
  | Add name hs tr =>
    show List.Pairwise (fun a b => a.id < b.id)
      (s.rows ++ [newRow s name hs tr])
    refine List.pairwise_append.mpr ⟨h, List.pairwise_singleton _ _, ?_⟩
    intro a ha b hb
    rw [List.mem_singleton.mp hb]
    exact id_lt_nextRowId ha
  | Latest name => exact h
  | Flush => exact h

theorem pairwise_id_runMsgs : ∀ (ms : List Msg) (s : SnapshotIndex),
    List.Pairwise (fun a b => a.id < b.id) s.rows →
    List.Pairwise (fun a b => a.id < b.id) (runMsgs s ms).rows
  | [], _, h => h
  | m :: ms, _, h => pairwise_id_runMsgs ms _ (pairwise_id_handle m h)

set_option maxRecDepth 40000 in
/-- C9 amended: the schema declares id as INTEGER PRIMARY KEY (the SQLite
rowid, without AUTOINCREMENT); each insert appends one row whose
store-assigned id is strictly greater than the id of every row already in
the table, so in every reachable state the ids are unique and strictly
increasing in insertion order (higher id = later), for every family. -/
theorem monotonic_id_assignment :
    (hasSubstring "INTEGER PRIMARY KEY".data createTableSql.data = true) ∧
    (∀ (s : SnapshotIndex) (fam : Bytes) (h : Hash) (t : Bytes),
      (add_snapshot s fam h t).rows = s.rows ++ [newRow s fam h t]) ∧
    (∀ (s : SnapshotIndex) (fam : Bytes) (h : Hash) (t : Bytes),
      ∀ r ∈ s.rows, r.id < (newRow s fam h t).id) ∧
    (∀ ms : List Msg,
      List.Pairwise (fun a b => a.id < b.id)
        (runMsgs SnapshotIndex.new ms).rows) := by
  refine ⟨by decide, fun s fam h t => rfl,
    fun s fam h t r hr => id_lt_nextRowId hr,
    fun ms => pairwise_id_runMsgs ms SnapshotIndex.new List.Pairwise.nil⟩

/-- Witness for C9 amended at a concrete input: a table holding one row
with id 1; the inserted row gets id 2. -/
theorem monotonic_id_assignment_witness :
    (Row.id ⟨1, [65], [0], [1]⟩)
      < (newRow ⟨[⟨1, [65], [0], [1]⟩], 1, true⟩ [66] ⟨[2]⟩ [3]).id :=
  monotonic_id_assignment.2.2.1 ⟨[⟨1, [65], [0], [1]⟩], 1, true⟩ [66] ⟨[2]⟩
    [3] ⟨1, [65], [0], [1]⟩ (List.mem_singleton.mpr rfl)

theorem runMsgs_append (a b : List Msg) (s : SnapshotIndex) :
    runMsgs s (a ++ b) = runMsgs (runMsgs s a) b := by
  induction a generalizing s with
  | nil => rfl
  | cons m ms ih => exact ih (handle s m).1

theorem cc_le_rows_handle {s : SnapshotIndex} (m : Msg)
    (h : s.committedCount ≤ s.rows.length) :
    (handle s m).1.committedCount ≤ (handle s m).1.rows.length := by
  cases m with
  | Add name hs tr =>
    show s.committedCount ≤ (s.rows ++ [newRow s name hs tr]).length
    rw [List.length_append]
    exact le_trans h (Nat.le_add_right _ _)
  | Latest name => exact h
  | Flush => exact Nat.le_refl _

theorem restart_add (s : SnapshotIndex) (fam : Bytes) (h : Hash) (t : Bytes)
    (hle : s.committedCount ≤ s.rows.length) :
    restart (add_snapshot s fam h t) = restart s := by
  show beginTxn ⟨(s.rows ++ [newRow s fam h t]).take s.committedCount,
        s.committedCount, false⟩
      = beginTxn ⟨s.rows.take s.committedCount, s.committedCount, false⟩
  rw [List.take_append_of_le_length hle]

theorem restart_runMsgs_ktlf : ∀ (ms : List Msg) (s : SnapshotIndex),
    s.committedCount ≤ s.rows.length →
    restart (runMsgs s ms) = restart (runMsgs s (keepThroughLastFlush ms)) := by
  intro ms
  induction ms with
  | nil => intro s hle; rfl
  | cons m ms ih =>
    intro s hle
    have h2 : restart (runMsgs (handle s m).1 ms)
        = restart (runMsgs (handle s m).1 (keepThroughLastFlush ms)) :=
      ih (handle s m).1 (cc_le_rows_handle m hle)
    cases hke : keepThroughLastFlush ms with
    | nil =>
      rw [hke] at h2
      cases m with
      | Add name hs tr =>
        simp only [keepThroughLastFlush, hke]
        exact h2.trans (restart_add s name hs tr hle)
      | Latest name =>
        simp only [keepThroughLastFlush, hke]
        exact h2
      | Flush =>
        simp only [keepThroughLastFlush, hke]
        exact h2
    | cons a l =>
      rw [hke] at h2
      simp only [keepThroughLastFlush, hke]
      exact h2

theorem ktlf_ends_flush : ∀ ms : List Msg, keepThroughLastFlush ms = [] ∨
    ∃ p, keepThroughLastFlush ms = p ++ [Msg.Flush] := by
  intro ms
  induction ms with
  | nil => exact Or.inl rfl
  | cons m ms ih =>
    cases hke : keepThroughLastFlush ms with
    | nil =>
      cases m with
      | Add name h t => exact Or.inl (by simp [keepThroughLastFlush, hke])
      | Latest name => exact Or.inl (by simp [keepThroughLastFlush, hke])
      | Flush => exact Or.inr ⟨[], by simp [keepThroughLastFlush, hke]⟩
    | cons a l =>
      rcases ih with h | ⟨p, hp⟩
      · rw [h] at hke
        cases hke
      · refine Or.inr ⟨m :: p, ?_⟩
        have hstep : keepThroughLastFlush (m :: ms) = m :: (a :: l) := by
          simp [keepThroughLastFlush, hke]
        rw [hstep, ← hke, hp]
        rfl

theorem run_ktlf_justFlushed (ms : List Msg) :
    (runMsgs SnapshotIndex.new (keepThroughLastFlush ms)).committedCount
      = (runMsgs SnapshotIndex.new (keepThroughLastFlush ms)).rows.length := by
  rcases ktlf_ends_flush ms with h | ⟨p, hp⟩
  · rw [h]
    rfl
  · rw [hp, runMsgs_append]
    rfl

theorem restart_rows_of_committed {s : SnapshotIndex}
    (h : s.committedCount = s.rows.length) : (restart s).rows = s.rows := by
  show s.rows.take s.committedCount = s.rows
  rw [h, List.take_length]

/-- C4: after a simulated restart (the open transaction rolled back to
the last committed state), Latest answers exactly as it would on the run
of only the operations up to and including the last successful Flush:
records added and flushed appear, records added after the last Flush do
not. -/
theorem durability_boundary (ms : List Msg) (f : Bytes) :
    latest_snapshot (restart (runMsgs SnapshotIndex.new ms)) f
      = latest_snapshot (runMsgs SnapshotIndex.new (keepThroughLastFlush ms)) f := by
  rw [restart_runMsgs_ktlf ms SnapshotIndex.new (Nat.zero_le _)]
  exact latest_of_rows_eq
    (restart_rows_of_committed (run_ktlf_justFlushed ms)) f
